import Mathlib

set_option maxRecDepth 100000

/- The Batteries rational arithmetic definitions are `@[irreducible]`,
which blocks `decide` from evaluating the embedded interpreters on
concrete inputs; restore the kernel's view of them. -/
set_option allowUnsafeReducibility true
attribute [semireducible] Rat.add Rat.mul Rat.inv Rat.sub Rat.div Rat.neg

/-!
Shallow embedding of the query interpretation pipeline of wlaunch-rs:
the arithmetic expression evaluator (src/features/calculator.rs), the
unit conversion resolver (src/features/converter.rs), the mode
classifier (src/ui/window.rs) and the fuzzy ranking wrapper
(src/core/item.rs), together with theorems settling the spec claims.

Modelling conventions:

* Rust `f64` values are modelled by `FVal`: finite doubles are carried
  as exact rationals (every concrete evaluation below exercises only
  inputs on which the IEEE operations involved are exact), and the IEEE
  special values NaN / +inf / -inf are explicit constructors.  Finite
  doubles whose exact value this development does not track (pi, e,
  transcendental function results at generic points, powers with
  non-integer exponents) are collapsed to the constructor `FVal.unk`;
  no theorem below depends on the numeric value of such a result.
* Rust string slices are modelled as `List Char`.  Byte indexing in the
  source (`&expr[1..]`, `&expr[func_name.len()..]`) is only performed
  after matching ASCII characters, where it coincides with character
  indexing.  `char::is_alphabetic` / `to_lowercase` are modelled by the
  ASCII `Char.isAlpha` / `Char.toLower`; the claims only exercise ASCII
  inputs, where the two agree.
* The recursive-descent parser of calculator.rs is fuel-indexed; the
  top level supplies fuel linear in the input length, which dominates
  the depth of any call chain the parser can make on that input.
-/

/-- Model of a Rust `f64` value: exact finite rationals, the IEEE special
values, and `unk` for finite doubles whose value is not tracked. -/
inductive FVal where
  | fin : ℚ → FVal
  | nan : FVal
  | inf : FVal
  | neginf : FVal
  | unk : FVal
  deriving DecidableEq

/-- IEEE negation. -/
def fneg : FVal → FVal
  | .fin q => .fin (-q)
  | .nan => .nan
  | .inf => .neginf
  | .neginf => .inf
  | .unk => .unk

/-- IEEE addition (exact on the finite rationals we track). -/
def fadd : FVal → FVal → FVal
  | .nan, _ => .nan
  | _, .nan => .nan
  | .unk, _ => .unk
  | _, .unk => .unk
  | .inf, .neginf => .nan
  | .neginf, .inf => .nan
  | .inf, _ => .inf
  | _, .inf => .inf
  | .neginf, _ => .neginf
  | _, .neginf => .neginf
  | .fin a, .fin b => .fin (a + b)

/-- IEEE subtraction, `a - b = a + (-b)`. -/
def fsub (a b : FVal) : FVal := fadd a (fneg b)

/-- IEEE multiplication (exact on the finite rationals we track). -/
def fmul : FVal → FVal → FVal
  | .nan, _ => .nan
  | _, .nan => .nan
  | .unk, _ => .unk
  | _, .unk => .unk
  | .inf, .fin b => if b = 0 then .nan else if 0 < b then .inf else .neginf
  | .fin a, .inf => if a = 0 then .nan else if 0 < a then .inf else .neginf
  | .neginf, .fin b => if b = 0 then .nan else if 0 < b then .neginf else .inf
  | .fin a, .neginf => if a = 0 then .nan else if 0 < a then .neginf else .inf
  | .inf, .inf => .inf
  | .neginf, .neginf => .inf
  | .inf, .neginf => .neginf
  | .neginf, .inf => .neginf
  | .fin a, .fin b => .fin (a * b)

/-- IEEE division (exact on the finite rationals we track; the calculator
only divides after checking the divisor against `0.0`). -/
def fdiv : FVal → FVal → FVal
  | .nan, _ => .nan
  | _, .nan => .nan
  | .unk, _ => .unk
  | _, .unk => .unk
  | .inf, .inf => .nan
  | .inf, .neginf => .nan
  | .neginf, .inf => .nan
  | .neginf, .neginf => .nan
  | .fin _, .inf => .fin 0
  | .fin _, .neginf => .fin 0
  | .inf, .fin b => if 0 ≤ b then .inf else .neginf
  | .neginf, .fin b => if 0 ≤ b then .neginf else .inf
  | .fin a, .fin b =>
      if b = 0 then (if a = 0 then .nan else if 0 < a then .inf else .neginf)
      else .fin (a / b)

/-- Truncation toward zero of a rational, as in C `trunc`. -/
def truncQ (q : ℚ) : ℤ := Int.tdiv q.num q.den

/-- IEEE remainder as computed by Rust's `%` on `f64` (C `fmod`):
`fmod x y = x - trunc (x / y) * y`; `fmod x 0 = NaN`. -/
def fmod : FVal → FVal → FVal
  | .nan, _ => .nan
  | _, .nan => .nan
  | .unk, _ => .unk
  | _, .unk => .unk
  | .inf, _ => .nan
  | .neginf, _ => .nan
  | .fin a, .inf => .fin a
  | .fin a, .neginf => .fin a
  | .fin a, .fin b =>
      if b = 0 then .nan else .fin (a - (truncQ (a / b) : ℚ) * b)

/-- IEEE `powf`.  Exact for rational bases with integer exponents (the
only case any claim exercises numerically); non-integer exponents on
positive bases give an untracked finite double. -/
def fpow (a b : FVal) : FVal :=
  match b, a with
  | .fin be, a =>
      if be = 0 then .fin 1
      else
        match a with
        | .fin ab =>
            if ab = 1 then .fin 1
            else if be.den = 1 then
              (if 0 ≤ be.num then .fin (ab ^ be.num.toNat)
               else if ab = 0 then .inf else .fin (ab ^ be.num))
            else if ab < 0 then .nan
            else if ab = 0 then (if 0 < be then .fin 0 else .inf)
            else .unk
        | .nan => .nan
        | .unk => .unk
        | .inf => if 0 < be then .inf else .fin 0
        | .neginf =>
            if 0 < be then
              (if be.den = 1 ∧ be.num % 2 = 1 then .neginf else .inf)
            else .fin 0
  | .nan, .fin ab => if ab = 1 then .fin 1 else .nan
  | .nan, _ => .nan
  | .unk, .nan => .nan
  | .unk, _ => .unk
  | .inf, .fin ab =>
      if ab = 1 ∨ ab = -1 then .fin 1
      else if -1 < ab ∧ ab < 1 then .fin 0 else .inf
  | .inf, .nan => .nan
  | .inf, .unk => .unk
  | .inf, .inf => .inf
  | .inf, .neginf => .inf
  | .neginf, .fin ab =>
      if ab = 1 ∨ ab = -1 then .fin 1
      else if -1 < ab ∧ ab < 1 then .inf else .fin 0
  | .neginf, .nan => .nan
  | .neginf, .unk => .unk
  | .neginf, .inf => .fin 0
  | .neginf, .neginf => .fin 0

/-- The `right == 0.0` test of `parse_multiplicative` (false on NaN). -/
def isZeroF : FVal → Bool
  | .fin q => decide (q = 0)
  | _ => false

/-- Is the rational a square of a rational (so that the IEEE square root
of its double representation is exact)? -/
def isSquareQ (q : ℚ) : Bool :=
  decide (0 ≤ q.num) &&
    decide ((Nat.sqrt q.num.toNat) ^ 2 = q.num.toNat) &&
    decide ((Nat.sqrt q.den) ^ 2 = q.den)

/-- `f64::sqrt`: NaN on negative arguments, exact on perfect squares. -/
def fsqrt : FVal → FVal
  | .fin q =>
      if q < 0 then .nan
      else if isSquareQ q then .fin ((Nat.sqrt q.num.toNat : ℚ) / (Nat.sqrt q.den : ℚ))
      else .unk
  | .nan => .nan
  | .inf => .inf
  | .neginf => .nan
  | .unk => .unk

/-- `f64::sin`: exact at 0, untracked elsewhere. -/
def fsin : FVal → FVal
  | .fin q => if q = 0 then .fin 0 else .unk
  | .nan => .nan
  | .inf => .nan
  | .neginf => .nan
  | .unk => .unk

/-- `f64::cos`: exact at 0, untracked elsewhere. -/
def fcos : FVal → FVal
  | .fin q => if q = 0 then .fin 1 else .unk
  | .nan => .nan
  | .inf => .nan
  | .neginf => .nan
  | .unk => .unk

/-- `f64::tan`: exact at 0, untracked elsewhere. -/
def ftan : FVal → FVal
  | .fin q => if q = 0 then .fin 0 else .unk
  | .nan => .nan
  | .inf => .nan
  | .neginf => .nan
  | .unk => .unk

/-- `f64::log10`: NaN on negatives, -inf at 0, exact at 1. -/
def flog10 : FVal → FVal
  | .fin q =>
      if q < 0 then .nan else if q = 0 then .neginf
      else if q = 1 then .fin 0 else .unk
  | .nan => .nan
  | .inf => .inf
  | .neginf => .nan
  | .unk => .unk

/-- `f64::ln`: NaN on negatives, -inf at 0, exact at 1. -/
def fln : FVal → FVal
  | .fin q =>
      if q < 0 then .nan else if q = 0 then .neginf
      else if q = 1 then .fin 0 else .unk
  | .nan => .nan
  | .inf => .inf
  | .neginf => .nan
  | .unk => .unk

/-- `f64::abs`. -/
def fabs : FVal → FVal
  | .fin q => .fin |q|
  | .nan => .nan
  | .inf => .inf
  | .neginf => .inf
  | .unk => .unk

/-- `f64::floor` (exact on the rationals we track). -/
def ffloor : FVal → FVal
  | .fin q => .fin (⌊q⌋ : ℚ)
  | .nan => .nan
  | .inf => .inf
  | .neginf => .neginf
  | .unk => .unk

/-- `f64::ceil`. -/
def fceil : FVal → FVal
  | .fin q => .fin (⌈q⌉ : ℚ)
  | .nan => .nan
  | .inf => .inf
  | .neginf => .neginf
  | .unk => .unk

/-- `f64::round`: rounds half away from zero. -/
def fround : FVal → FVal
  | .fin q => .fin (if 0 ≤ q then ((⌊q + 1/2⌋ : ℤ) : ℚ) else ((⌈q - 1/2⌉ : ℤ) : ℚ))
  | .nan => .nan
  | .inf => .inf
  | .neginf => .neginf
  | .unk => .unk

/-- `std::f64::consts::PI`: a finite double whose value is not tracked. -/
def piF : FVal := .unk

/-- `std::f64::consts::E`: a finite double whose value is not tracked. -/
def eF : FVal := .unk

/-- The function table of `Calculator::parse_primary`, in source order. -/
def funcTable : List (List Char × (FVal → FVal)) :=
  [("sqrt".data, fsqrt), ("sin".data, fsin), ("cos".data, fcos),
   ("tan".data, ftan), ("log".data, flog10), ("ln".data, fln),
   ("abs".data, fabs), ("floor".data, ffloor), ("ceil".data, fceil),
   ("round".data, fround)]

/-- The digit/single-dot scan of `Calculator::parse_number`'s loop:
returns the scanned prefix and the remaining characters. -/
def numSpan : List Char → Bool → List Char × List Char
  | [], _ => ([], [])
  | c :: rest, hasDot =>
      if c.isDigit then
        let (tk, rm) := numSpan rest hasDot
        (c :: tk, rm)
      else if c = '.' ∧ hasDot = false then
        let (tk, rm) := numSpan rest true
        ('.' :: tk, rm)
      else ([], c :: rest)

/-- Digit characters to the natural number they denote. -/
def digitsToNat (l : List Char) : ℕ :=
  l.foldl (fun n c => 10 * n + (c.toNat - 48)) 0

/-- Rust `f64::from_str` restricted to the token shapes `parse_number`
can scan (digits with at most one dot): `"5."` and `".5"` parse, `"."`
does not.  The value is exact for the inputs the claims exercise. -/
def ratOfToken (tk : List Char) : Option ℚ :=
  if tk = [] then none
  else
    let ip := tk.takeWhile (fun c => c.isDigit)
    let rest := tk.dropWhile (fun c => c.isDigit)
    match rest with
    | [] => some (digitsToNat ip : ℚ)
    | '.' :: fp =>
        if ip = [] ∧ fp = [] then none
        else some ((digitsToNat ip : ℚ) + (digitsToNat fp : ℚ) / (10 : ℚ) ^ fp.length)
    | _ => none

/-- `Calculator::parse_number`. -/
def parseNumber (l : List Char) : Option (FVal × List Char) :=
  let l := l.dropWhile Char.isWhitespace
  let (tk, rest) := numSpan l false
  if tk = [] then none
  else
    match ratOfToken tk with
    | none => none
    | some q => some (.fin q, rest)

/-- Head-of-list test for `char::is_alphabetic` used by the `e`
constant check (ASCII restriction, see the header comment). -/
def headIsAlpha : List Char → Bool
  | c :: _ => c.isAlpha
  | [] => false

/-- The constant checks and number fallback at the tail of
`Calculator::parse_primary`: `pi`, then `e` when not followed by an
alphabetic character, then a number literal. -/
def parseAtom (l : List Char) : Option (FVal × List Char) :=
  if ("pi".data).isPrefixOf (l.map Char.toLower) then some (piF, l.drop 2)
  else if ("e".data).isPrefixOf (l.map Char.toLower) ∧ headIsAlpha (l.drop 1) = false then
    some (eF, l.drop 1)
  else parseNumber l

mutual

/-- `Calculator::parse_additive` (fuel-indexed). -/
def parseAdditive : ℕ → List Char → Option (FVal × List Char)
  | 0, _ => none
  | f + 1, l =>
      match parseMultiplicative f l with
      | none => none
      | some (v, rest) => addLoop f v rest

/-- The `while` loop of `parse_additive`. -/
def addLoop : ℕ → FVal → List Char → Option (FVal × List Char)
  | 0, _, _ => none
  | f + 1, left, l =>
      match l with
      | '+' :: rest =>
          match parseMultiplicative f rest with
          | none => none
          | some (r, rm) => addLoop f (fadd left r) rm
      | '-' :: rest =>
          match parseMultiplicative f rest with
          | none => none
          | some (r, rm) => addLoop f (fsub left r) rm
      | _ => some (left, l)

/-- `Calculator::parse_multiplicative` (fuel-indexed). -/
def parseMultiplicative : ℕ → List Char → Option (FVal × List Char)
  | 0, _ => none
  | f + 1, l =>
      match parsePower f l with
      | none => none
      | some (v, rest) => mulLoop f v rest

/-- The `while` loop of `parse_multiplicative`: `*` (unless it starts
`**`), `/` with the zero-divisor check, and `%` with no such check. -/
def mulLoop : ℕ → FVal → List Char → Option (FVal × List Char)
  | 0, _, _ => none
  | _ + 1, left, '*' :: '*' :: rest => some (left, '*' :: '*' :: rest)
  | f + 1, left, '*' :: rest =>
      match parsePower f rest with
      | none => none
      | some (r, rm) => mulLoop f (fmul left r) rm
  | f + 1, left, '/' :: rest =>
      match parsePower f rest with
      | none => none
      | some (r, rm) =>
          if isZeroF r then none else mulLoop f (fdiv left r) rm
  | f + 1, left, '%' :: rest =>
      match parsePower f rest with
      | none => none
      | some (r, rm) => mulLoop f (fmod left r) rm
  | _ + 1, left, l => some (left, l)

/-- `Calculator::parse_power`: right-associative `**`. -/
def parsePower : ℕ → List Char → Option (FVal × List Char)
  | 0, _ => none
  | f + 1, l =>
      match parseUnary f l with
      | none => none
      | some (base, rest) =>
          match rest with
          | '*' :: '*' :: rm =>
              match parsePower f rm with
              | none => none
              | some (e, rm2) => some (fpow base e, rm2)
          | _ => some (base, rest)

/-- `Calculator::parse_unary`: one optional sign, then a primary
(the source calls `parse_primary`, not itself, under a sign). -/
def parseUnary : ℕ → List Char → Option (FVal × List Char)
  | 0, _ => none
  | f + 1, l =>
      let l := l.dropWhile Char.isWhitespace
      match l with
      | '-' :: rest =>
          match parsePrimary f rest with
          | none => none
          | some (v, rm) => some (fneg v, rm)
      | '+' :: rest => parsePrimary f rest
      | _ => parsePrimary f l

/-- `Calculator::parse_primary`: parentheses, then the function table,
then constants and numbers. -/
def parsePrimary : ℕ → List Char → Option (FVal × List Char)
  | 0, _ => none
  | f + 1, l =>
      let l := l.dropWhile Char.isWhitespace
      match l with
      | '(' :: rest =>
          match parseAdditive f rest with
          | none => none
          | some (v, rm) =>
              match rm.dropWhile Char.isWhitespace with
              | ')' :: rm2 => some (v, rm2)
              | _ => none
      | _ => tryFuncs f funcTable l

/-- The `for` loop over the function table in `parse_primary`: on a
name match followed by `(`, a failing argument parse aborts (the `?`
operator), a missing `)` falls through to the next candidate. -/
def tryFuncs : ℕ → List (List Char × (FVal → FVal)) → List Char → Option (FVal × List Char)
  | 0, _, _ => none
  | _ + 1, [], l => parseAtom l
  | f + 1, (nm, fn) :: fns, l =>
      if nm.isPrefixOf (l.map Char.toLower) then
        match (l.drop nm.length).dropWhile Char.isWhitespace with
        | '(' :: r2 =>
            match parseAdditive f r2 with
            | none => none
            | some (arg, rm) =>
                match rm.dropWhile Char.isWhitespace with
                | ')' :: rm2 => some (fn arg, rm2)
                | _ => tryFuncs f fns l
        | _ => tryFuncs f fns l
      else tryFuncs f fns l

end

/-- Replacement of the two-character mojibake multiplication glyph
(`"ร\u0097"`, the bytes literally present in calculator.rs) by `*`. -/
def replGlyphMul : List Char → List Char
  | 'ร' :: '\u0097' :: rest => '*' :: replGlyphMul rest
  | c :: rest => c :: replGlyphMul rest
  | [] => []

/-- Replacement of the two-character mojibake division glyph
(`"รท"`) by `/`. -/
def replGlyphDiv : List Char → List Char
  | 'ร' :: 'ท' :: rest => '/' :: replGlyphDiv rest
  | c :: rest => c :: replGlyphDiv rest
  | [] => []

/-- Replacement of `^` by `**`. -/
def replCaret : List Char → List Char
  | '^' :: rest => '*' :: '*' :: replCaret rest
  | c :: rest => c :: replCaret rest
  | [] => []

/-- The preprocessing chain of `Calculator::evaluate`: delete spaces,
`x` to `*`, the two glyph replacements, `^` to `**`. -/
def preprocess (l : List Char) : List Char :=
  replCaret (replGlyphDiv (replGlyphMul
    ((l.filter (fun c => c ≠ ' ')).map (fun c => if c = 'x' then '*' else c))))

/-- Fuel amply covering every call chain the parser can make on `l`. -/
def fuelFor (l : List Char) : ℕ := 16 * l.length + 64

/-- `Calculator::parse_expression`: run the additive parser and discard
whatever unconsumed suffix remains. -/
def parseExpression (l : List Char) : Option FVal :=
  (parseAdditive (fuelFor l) l).map Prod.fst

/-- `Calculator::evaluate`. -/
def evaluate (s : String) : Option FVal :=
  parseExpression (preprocess s.data)

/-! ## Mode classifier (src/ui/window.rs) -/

/-- The `Mode` enumeration of window.rs. -/
inductive Mode where
  | Apps | Windows | Processes | Wifi | Bluetooth | Audio | Clipboard
  | Notes | Snippets | Todos | Ssh | Docker | Timer | Emoji | Files
  | RecentFiles | Bitwarden | Ai | WebSearch | Calculator | Converter
  deriving DecidableEq

/-- Rust `str::trim`: drop whitespace from both ends. -/
def strTrim (l : List Char) : List Char :=
  ((l.dropWhile Char.isWhitespace).reverse.dropWhile Char.isWhitespace).reverse

/-- Rust `query.splitn(2, ' ')`: the characters before the first space
character, and — when a space exists — everything after it.  Note the
separator is the single character `' '`, not general whitespace. -/
def splitFirstSpace : List Char → List Char × Option (List Char)
  | [] => ([], none)
  | ' ' :: rest => ([], some rest)
  | c :: rest =>
      let (a, b) := splitFirstSpace rest
      (c :: a, b)

/-- Substring test (Rust `str::contains` with a literal pattern). -/
def containsSub (pat : List Char) : List Char → Bool
  | [] => pat.isPrefixOf []
  | c :: rest => pat.isPrefixOf (c :: rest) || containsSub pat rest

/-- `is_math_expression`: at least one operator character from
`+-*/^%()` and at least one ASCII digit. -/
def is_math_expression (l : List Char) : Bool :=
  (l.any fun c => ("+-*/^%()".data).contains c) && (l.any fun c => c.isDigit)

/-- `is_conversion`: the lower-cased query contains `" to "` or `" in "`. -/
def is_conversion (l : List Char) : Bool :=
  let ll := l.map Char.toLower
  containsSub (" to ".data) ll || containsSub (" in ".data) ll

/-- `Mode::from_query`: trim, split at the first space, look the
lower-cased prefix up in the static table, else apply the math and
conversion heuristics to the whole trimmed query, else `Apps`. -/
def Mode.from_query (q : String) : Mode × String :=
  let t := strTrim q.data
  let (p, rem) := splitFirstSpace t
  let prf : String := String.mk (p.map Char.toLower)
  let remainder : String := String.mk (rem.getD [])
  match prf with
  | "w" | "window" | "windows" => (Mode.Windows, remainder)
  | "ps" | "proc" | "process" => (Mode.Processes, remainder)
  | "wifi" | "network" => (Mode.Wifi, remainder)
  | "bt" | "bluetooth" => (Mode.Bluetooth, remainder)
  | "vol" | "volume" | "audio" => (Mode.Audio, remainder)
  | "cb" | "clip" | "clipboard" => (Mode.Clipboard, remainder)
  | "note" | "notes" => (Mode.Notes, remainder)
  | "snip" | "snippet" | "snippets" => (Mode.Snippets, remainder)
  | "todo" | "todos" | "task" | "tasks" => (Mode.Todos, remainder)
  | "ssh" => (Mode.Ssh, remainder)
  | "docker" | "container" | "containers" => (Mode.Docker, remainder)
  | "timer" | "stopwatch" => (Mode.Timer, remainder)
  | "e" | "emoji" => (Mode.Emoji, remainder)
  | "f" | "find" | "file" | "files" => (Mode.Files, remainder)
  | "r" | "recent" => (Mode.RecentFiles, remainder)
  | "bw" | "bitwarden" | "pass" | "password" => (Mode.Bitwarden, remainder)
  | "ask" | "ai" | "?" => (Mode.Ai, remainder)
  | "g" | "google" => (Mode.WebSearch, "google " ++ remainder)
  | "gh" | "github" => (Mode.WebSearch, "github " ++ remainder)
  | "yt" | "youtube" => (Mode.WebSearch, "youtube " ++ remainder)
  | _ =>
      if is_math_expression t then (Mode.Calculator, String.mk t)
      else if is_conversion t then (Mode.Converter, String.mk t)
      else (Mode.Apps, String.mk t)

/-! ## Unit conversion resolver (src/features/converter.rs)

The dimension tables are association lists (the source uses `HashMap`s,
accessed only by `get`, and all keys are distinct, so lookup order is
the only observable).  The decimal factors in the source are written
here as the exact rationals those literals denote. -/

/-- Length table, base meters. -/
def length_units : List (String × ℚ) :=
  [("m", 1), ("meter", 1), ("meters", 1),
   ("km", 1000), ("kilometer", 1000), ("kilometers", 1000),
   ("cm", 1/100), ("centimeter", 1/100), ("centimeters", 1/100),
   ("mm", 1/1000), ("millimeter", 1/1000), ("millimeters", 1/1000),
   ("mi", 1609344/1000), ("mile", 1609344/1000), ("miles", 1609344/1000),
   ("ft", 3048/10000), ("foot", 3048/10000), ("feet", 3048/10000),
   ("in", 254/10000), ("inch", 254/10000), ("inches", 254/10000),
   ("yd", 9144/10000), ("yard", 9144/10000), ("yards", 9144/10000)]

/-- Weight table, base grams. -/
def weight_units : List (String × ℚ) :=
  [("g", 1), ("gram", 1), ("grams", 1),
   ("kg", 1000), ("kilogram", 1000), ("kilograms", 1000),
   ("mg", 1/1000), ("milligram", 1/1000), ("milligrams", 1/1000),
   ("lb", 453592/1000), ("lbs", 453592/1000),
   ("pound", 453592/1000), ("pounds", 453592/1000),
   ("oz", 283495/10000), ("ounce", 283495/10000), ("ounces", 283495/10000),
   ("t", 1000000), ("ton", 1000000), ("tons", 1000000)]

/-- Temperature unit names (handled by a dedicated non-linear path). -/
def temperature_units : List String :=
  ["c", "celsius", "f", "fahrenheit", "k", "kelvin"]

/-- Time table, base seconds. -/
def time_units : List (String × ℚ) :=
  [("s", 1), ("sec", 1), ("second", 1), ("seconds", 1),
   ("ms", 1/1000), ("millisecond", 1/1000), ("milliseconds", 1/1000),
   ("min", 60), ("minute", 60), ("minutes", 60),
   ("h", 3600), ("hr", 3600), ("hour", 3600), ("hours", 3600),
   ("d", 86400), ("day", 86400), ("days", 86400),
   ("w", 604800), ("week", 604800), ("weeks", 604800),
   ("y", 31536000), ("year", 31536000), ("years", 31536000)]

/-- Data table, base bytes, 1024-based. -/
def data_units : List (String × ℚ) :=
  [("b", 1), ("byte", 1), ("bytes", 1),
   ("kb", 1024), ("kilobyte", 1024), ("kilobytes", 1024),
   ("mb", 1048576), ("megabyte", 1048576), ("megabytes", 1048576),
   ("gb", 1073741824), ("gigabyte", 1073741824), ("gigabytes", 1073741824),
   ("tb", 1099511627776), ("terabyte", 1099511627776), ("terabytes", 1099511627776)]

/-- `Converter::convert_temperature`: source unit to Celsius by the
inverse formula, Celsius to target by the forward formula. -/
def convert_temperature (v : ℚ) (src dst : String) : Option ℚ :=
  match (match src with
         | "c" | "celsius" => some v
         | "f" | "fahrenheit" => some ((v - 32) * 5 / 9)
         | "k" | "kelvin" => some (v - 27315/100)
         | _ => none) with
  | none => none
  | some c =>
      match dst with
      | "c" | "celsius" => some c
      | "f" | "fahrenheit" => some (c * 9 / 5 + 32)
      | "k" | "kelvin" => some (c + 27315/100)
      | _ => none

/-- One `if let (Some(from_factor), Some(to_factor)) = (get, get)` step
of `Converter::convert`: both units in the table convert through the
base unit, otherwise fall through to the continuation. -/
def tryTable (tbl : List (String × ℚ)) (v : ℚ) (src dst : String)
    (k : Option ℚ) : Option ℚ :=
  match tbl.lookup src, tbl.lookup dst with
  | some ff, some tf => some (v * ff / tf)
  | _, _ => k

/-- `Converter::convert`: length, weight, temperature, time, data, in
source order; `None` when no table contains both units. -/
def convert (v : ℚ) (src dst : String) : Option ℚ :=
  tryTable length_units v src dst <|
  tryTable weight_units v src dst <|
  (if temperature_units.contains src && temperature_units.contains dst then
     convert_temperature v src dst
   else
     tryTable time_units v src dst <|
     tryTable data_units v src dst <| none)

/-- One attempt of the regex
`(\d+\.?\d*)\s*([a-z]+)\s+(?:to|in)\s+([a-z]+)` of
`Converter::parse_conversion`, anchored at the head of `l`, returning
the three capture groups.  Greedy quantifier semantics: every
quantified class here is followed by material it cannot itself match,
so maximal munch without backtracking coincides with the regex crate's
leftmost-first semantics. -/
def matchConvAt (l : List Char) : Option (List Char × List Char × List Char) :=
  let (d1, r1) := l.span Char.isDigit
  if d1 = [] then none
  else
    let (d2, r2) :=
      match r1 with
      | '.' :: rr =>
          let (dd, r) := rr.span Char.isDigit
          ('.' :: dd, r)
      | _ => ([], r1)
    let r3 := r2.dropWhile Char.isWhitespace
    let (u1, r4) := r3.span Char.isLower
    if u1 = [] then none
    else if (r4.takeWhile Char.isWhitespace) = [] then none
    else
      let r5 := r4.dropWhile Char.isWhitespace
      match r5 with
      | 't' :: 'o' :: r6 =>
          if (r6.takeWhile Char.isWhitespace) = [] then none
          else
            let r7 := r6.dropWhile Char.isWhitespace
            let (u2, _) := r7.span Char.isLower
            if u2 = [] then none else some (d1 ++ d2, u1, u2)
      | 'i' :: 'n' :: r6 =>
          if (r6.takeWhile Char.isWhitespace) = [] then none
          else
            let r7 := r6.dropWhile Char.isWhitespace
            let (u2, _) := r7.span Char.isLower
            if u2 = [] then none else some (d1 ++ d2, u1, u2)
      | _ => none

/-- Leftmost match of the conversion pattern: try each start position
left to right (`Regex::captures` returns the first match). -/
def findConv : List Char → Option (List Char × List Char × List Char)
  | [] => none
  | c :: rest =>
      match matchConvAt (c :: rest) with
      | some caps => some caps
      | none => findConv rest

/-- `Converter::parse_conversion`: lower-case the query, find the first
regex match, parse the numeric capture. -/
def parse_conversion (q : String) : Option (ℚ × String × String) :=
  match findConv (q.data.map Char.toLower) with
  | none => none
  | some (c1, u1, u2) =>
      match ratOfToken c1 with
      | none => none
      | some v => some (v, String.mk u1, String.mk u2)

/-- The resolver pipeline of `Converter::get_items`: extract
`(value, from, to)` and convert. -/
def resolveConv (q : String) : Option ℚ :=
  match parse_conversion q with
  | none => none
  | some (v, src, dst) => convert v src dst

/-! ## Fuzzy ranking (src/core/item.rs, src/ui/window.rs)

`Item::fuzzy_score` delegates the per-string match to the external
`fuzzy_matcher` crate's `SkimMatcherV2::fuzzy_match`; that crate is not
part of this repository, so it appears here as an explicit parameter
`fm : String → String → Option ℤ` (`None` is "no match").  Only the
ranking-relevant fields of `Item` are carried: the other fields
(id, icon, exec, metadata, ...) are never consulted by `fuzzy_score`
or by the Apps filter. -/

/-- The fields of `Item` consulted by ranking. -/
structure Item where
  name : String
  description : Option String
  keywords : List String
  deriving DecidableEq

/-- The keyword loop of `Item::fuzzy_score`:
`best_score = best_score.max(score / 2)` per matching keyword, where
`/` is Rust `i64` division (truncation toward zero, `Int.tdiv`). -/
def kwFold (fm : String → String → Option ℤ) (q : String) :
    ℤ → List String → ℤ
  | b, [] => b
  | b, kw :: rest =>
      kwFold fm q
        (match fm kw q with
         | some s => max b (Int.tdiv s 2)
         | none => b) rest

/-- The name line of `Item::fuzzy_score`: the accumulator starts at
`0i64` and takes the maximum with the name score when it matches. -/
def nameStep (fm : String → String → Option ℤ) (it : Item) (q : String) : ℤ :=
  match fm it.name q with
  | some s => max 0 s
  | none => 0

/-- The description line of `Item::fuzzy_score`: maximum with the
halved description score when the description exists and matches. -/
def descStep (fm : String → String → Option ℤ) (it : Item) (q : String)
    (b1 : ℤ) : ℤ :=
  match it.description with
  | some d =>
      match fm d q with
      | some s => max b1 (Int.tdiv s 2)
      | none => b1
  | none => b1

/-- `Item::fuzzy_score`: accumulator starts at 0 and takes the maximum
of the name score, the description score halved, and each keyword
score halved. -/
def fuzzy_score (fm : String → String → Option ℤ) (it : Item) (q : String) : ℤ :=
  kwFold fm q (descStep fm it q (nameStep fm it q)) it.keywords

/-- Rust `str::to_lowercase` (ASCII fragment). -/
def lowerStr (q : String) : String := String.mk (q.data.map Char.toLower)

/-- The `Mode::Apps` branch of `WLaunch::filter_items` (non-empty
query): keep `(item, score)` for items with `fuzzy_score > 0`, in
order.  (The subsequent stable sort by descending score permutes but
never adds or removes entries and is not needed by the claims.) -/
def filterApps (fm : String → String → Option ℤ) (q : String)
    (items : List Item) : List (Item × ℤ) :=
  items.filterMap fun it =>
    let score := fuzzy_score fm it (lowerStr q)
    if score > 0 then some (it, score) else none

/-! Spec-side candidate definitions, written from the claim's words
("the maximum of: the name's raw score, the description's score divided
by two, and the maximum keyword score divided by two; absent fields
contribute nothing"), for comparison with `fuzzy_score`. -/

/-- A field's halved score: the match score divided by two (truncating
`i64` division); a non-matching field contributes nothing. -/
def halfScore (fm : String → String → Option ℤ) (q s : String) : ℤ :=
  match fm s q with
  | some r => Int.tdiv r 2
  | none => 0

/-- Candidate 1: the raw match score against the item's name. -/
def nameCand (fm : String → String → Option ℤ) (it : Item) (q : String) : ℤ :=
  match fm it.name q with
  | some r => r
  | none => 0

/-- Candidate 2: the description's score divided by two. -/
def descCand (fm : String → String → Option ℤ) (it : Item) (q : String) : ℤ :=
  match it.description with
  | some d => halfScore fm q d
  | none => 0

/-- Candidate 3: the largest halved keyword score. -/
def kwCand (fm : String → String → Option ℤ) (it : Item) (q : String) : ℤ :=
  (it.keywords.map (halfScore fm q)).foldl max 0

/-- Single-digit character, for quantified precedence statements. -/
def dChar (a : ℕ) : Char := Char.ofNat (48 + a)

/-! ## Helper lemmas -/

lemma le_foldl_max : ∀ (l : List ℤ) (b : ℤ), b ≤ l.foldl max b
  | [], _ => le_refl _
  | x :: xs, b => le_trans (le_max_left b x) (le_foldl_max xs (max b x))

lemma foldl_max_shift : ∀ (l : List ℤ) (b : ℤ), 0 ≤ b → (∀ x ∈ l, 0 ≤ x) →
    l.foldl max b = max b (l.foldl max 0)
  | [], b, hb, _ => by simp [max_eq_left hb]
  | x :: xs, b, hb, hl => by
      have hx : 0 ≤ x := hl x (List.mem_cons_self x xs)
      have hxs : ∀ y ∈ xs, 0 ≤ y := fun y hy => hl y (List.mem_cons_of_mem x hy)
      simp only [List.foldl_cons]
      rw [foldl_max_shift xs (max b x) (le_trans hb (le_max_left b x)) hxs,
          foldl_max_shift xs (max 0 x) (le_trans hx (le_max_right 0 x)) hxs,
          max_eq_right hx, max_assoc]

lemma halfScore_nonneg (fm : String → String → Option ℤ) (q s : String)
    (h : ∀ a b r, fm a b = some r → 0 ≤ r) : 0 ≤ halfScore fm q s := by
  unfold halfScore
  cases hfm : fm s q with
  | none => exact le_refl 0
  | some r => exact Int.tdiv_nonneg (h _ _ _ hfm) (by omega)

lemma le_kwFold (fm : String → String → Option ℤ) (q : String) :
    ∀ (kws : List String) (b : ℤ), b ≤ kwFold fm q b kws
  | [], b => le_refl b
  | kw :: rest, b => by
      simp only [kwFold]
      refine le_trans ?_ (le_kwFold fm q rest _)
      cases fm kw q
      · exact le_refl b
      · exact le_max_left _ _

lemma kwFold_eq (fm : String → String → Option ℤ) (q : String)
    (h : ∀ a b r, fm a b = some r → 0 ≤ r) :
    ∀ (kws : List String) (b : ℤ), 0 ≤ b →
      kwFold fm q b kws = max b ((kws.map (halfScore fm q)).foldl max 0)
  | [], b, hb => by simp [kwFold, max_eq_left hb]
  | kw :: rest, b, hb => by
      have hc : 0 ≤ halfScore fm q kw := halfScore_nonneg fm q kw h
      have hrest : ∀ x ∈ rest.map (halfScore fm q), 0 ≤ x := by
        intro x hx
        rcases List.mem_map.mp hx with ⟨y, _, rfl⟩
        exact halfScore_nonneg fm q y h
      have step :
          (match fm kw q with
           | some s => max b (Int.tdiv s 2)
           | none => b) = max b (halfScore fm q kw) := by
        unfold halfScore
        cases hfm : fm kw q with
        | none => simp [max_eq_left hb]
        | some s => rfl
      simp only [kwFold, step]
      rw [kwFold_eq fm q h rest _ (le_trans hb (le_max_left _ _)),
          List.map_cons, List.foldl_cons,
          foldl_max_shift (rest.map (halfScore fm q)) (max 0 (halfScore fm q kw))
            (le_trans hc (le_max_right 0 _)) hrest,
          max_eq_right hc, max_assoc]

lemma nameStep_nonneg (fm : String → String → Option ℤ) (it : Item)
    (q : String) : 0 ≤ nameStep fm it q := by
  unfold nameStep
  cases fm it.name q
  · exact le_refl 0
  · exact le_max_left 0 _

lemma le_descStep (fm : String → String → Option ℤ) (it : Item) (q : String)
    (b1 : ℤ) : b1 ≤ descStep fm it q b1 := by
  unfold descStep
  split
  · split
    · exact le_max_left b1 _
    · exact le_refl b1
  · exact le_refl b1

lemma fuzzy_score_nonneg (fm : String → String → Option ℤ) (it : Item)
    (q : String) : 0 ≤ fuzzy_score fm it q := by
  unfold fuzzy_score
  exact le_trans (le_trans (nameStep_nonneg fm it q) (le_descStep fm it q _))
    (le_kwFold fm q it.keywords _)

lemma nameStep_eq (fm : String → String → Option ℤ) (it : Item) (q : String)
    (h : ∀ a b r, fm a b = some r → 0 ≤ r) :
    nameStep fm it q = nameCand fm it q := by
  unfold nameStep nameCand
  cases hn : fm it.name q with
  | none => rfl
  | some s => simpa using max_eq_right (h _ _ _ hn)

lemma descStep_eq (fm : String → String → Option ℤ) (it : Item) (q : String)
    (b1 : ℤ) (hb1 : 0 ≤ b1) (h : ∀ a b r, fm a b = some r → 0 ≤ r) :
    descStep fm it q b1 = max b1 (descCand fm it q) := by
  unfold descStep descCand halfScore
  cases hd : it.description with
  | none => simp [max_eq_left hb1]
  | some d =>
      cases hfd : fm d q with
      | none => simp [hfd, max_eq_left hb1]
      | some s => simp [hfd]

lemma tryTable_isSome (tbl : List (String × ℚ)) (v : ℚ) (src dst : String)
    (k : Option ℚ) :
    (tryTable tbl v src dst k).isSome = true ↔
      (((tbl.lookup src).isSome = true ∧ (tbl.lookup dst).isSome = true) ∨
        k.isSome = true) := by
  unfold tryTable
  cases h1 : tbl.lookup src <;> cases h2 : tbl.lookup dst <;> simp

lemma convert_temperature_isSome (v : ℚ) (src dst : String)
    (hs : temperature_units.contains src = true)
    (hd : temperature_units.contains dst = true) :
    (convert_temperature v src dst).isSome = true := by
  have hs' : src ∈ temperature_units := by simpa using hs
  have hd' : dst ∈ temperature_units := by simpa using hd
  simp only [temperature_units, List.mem_cons, List.not_mem_nil, or_false] at hs' hd'
  rcases hs' with rfl | rfl | rfl | rfl | rfl | rfl <;>
    rcases hd' with rfl | rfl | rfl | rfl | rfl | rfl <;>
      simp [convert_temperature]

/-! ## Claim theorems -/

/-- C1 counterexample: the claim predicts `evaluate` returns `None`
when trailing garbage follows a complete additive expression, but the
code keeps the partial value: `evaluate "5abc" = Some 5.0`, and the
unmatched extra parenthesis in `"(2+3))"` is likewise discarded. -/
theorem trailing_garbage_keeps_value_cex :
    evaluate "5abc" = some (FVal.fin 5) ∧
    evaluate "(2+3))" = some (FVal.fin 5) := by
  constructor
  · decide
  · decide

/-- C1 (amended): whenever the top-level additive parse completes with
some value, `evaluate` returns that value, silently discarding any
unconsumed suffix, empty or not. -/
theorem evaluate_keeps_partial_value (s : String) (v : FVal) (rest : List Char)
    (h : parseAdditive (fuelFor (preprocess s.data)) (preprocess s.data) =
      some (v, rest)) :
    evaluate s = some v := by
  unfold evaluate parseExpression
  rw [h]
  rfl

/-- Witness for the amended C1 at the input `"7)"`, whose additive
parse completes with value 7 and unconsumed suffix `")"`. -/
theorem evaluate_keeps_partial_value_witness : evaluate "7)" = some (FVal.fin 7) :=
  evaluate_keeps_partial_value "7)" (FVal.fin 7) [')'] (by decide)

/-- C2 counterexample: `evaluate "5%0"` returns `Some NaN`, a
non-finite value, contradicting the claim that every `Some` result is
finite. -/
theorem evaluate_nonfinite_cex : evaluate "5%0" = some FVal.nan := by decide

/-- C2 (amended): `evaluate` totally returns `Some`/`None`, but a
`Some` result need not be finite: modulo by zero gives NaN, `ln(0)`
gives -inf, `sqrt(0-1)` gives NaN; only direct division by zero is
remapped to `None`. -/
theorem evaluate_nonfinite_some_values :
    evaluate "5%0" = some FVal.nan ∧
    evaluate "ln(0)" = some FVal.neginf ∧
    evaluate "sqrt(0-1)" = some FVal.nan ∧
    evaluate "5/0" = none := by
  refine ⟨by decide, by decide, by decide, by decide⟩

/-- C3: the four reference queries of the spec classify exactly as
stated: prefix beats heuristics, the math heuristic fires on `"5+5"`,
the conversion heuristic on `"5 km to m"` with the full query as
residual, and the empty query yields `Apps` with empty residual. -/
theorem from_query_reference_queries :
    Mode.from_query "wifi 5+5" = (Mode.Wifi, "5+5") ∧
    Mode.from_query "5+5" = (Mode.Calculator, "5+5") ∧
    Mode.from_query "5 km to m" = (Mode.Converter, "5 km to m") ∧
    Mode.from_query "" = (Mode.Apps, "") := by
  refine ⟨by decide, by decide, by decide, by decide⟩

/-- C4: when the right operand of a parsed division is exactly zero the
multiplicative loop aborts the whole parse with `None` (which the
option-chaining propagates to the top), so `evaluate "5/0" = None` and
`evaluate "1+2/0" = None`; modulo by zero does not panic, it returns
the NaN value. -/
theorem division_by_zero_yields_none :
    (∀ (fuel : ℕ) (left right : FVal) (rest rm : List Char),
        parsePower fuel rest = some (right, rm) → isZeroF right = true →
        mulLoop (fuel + 1) left ('/' :: rest) = none) ∧
    evaluate "5/0" = none ∧ evaluate "1+2/0" = none ∧
    evaluate "5%0" = some FVal.nan := by
  refine ⟨?_, by decide, by decide, by decide⟩
  intro fuel left right rest rm hp hz
  simp only [mulLoop, hp, hz]
  rfl

/-- Witness for C4: at fuel 40, `parse_power` on `"0"` returns exactly
zero, and the multiplicative loop on `"/0"` aborts with `None`. -/
theorem division_by_zero_yields_none_witness :
    mulLoop (40 + 1) (FVal.fin 5) ('/' :: '0' :: []) = none :=
  division_by_zero_yields_none.1 40 (FVal.fin 5) (FVal.fin 0) ('0' :: []) []
    (by decide) (by decide)

set_option maxHeartbeats 1600000 in
/-- C6: `evaluate` implements standard precedence with
right-associative `**`: the spec's three examples hold, and over all
triples of digits 0 through 4 additive binds looser than
multiplicative and parentheses override that, while over digits 0
through 2 stacked `**` nests to the right. -/
theorem evaluate_operator_precedence :
    evaluate "2+3*4" = some (FVal.fin 14) ∧
    evaluate "(2+3)*4" = some (FVal.fin 20) ∧
    evaluate "2**3**2" = some (FVal.fin 512) ∧
    (∀ a b c : Fin 5,
        evaluate (String.mk [dChar a.val, '+', dChar b.val, '*', dChar c.val]) =
          some (FVal.fin ((a.val : ℚ) + (b.val : ℚ) * (c.val : ℚ)))) ∧
    (∀ a b c : Fin 5,
        evaluate (String.mk [dChar a.val, '*', dChar b.val, '+', dChar c.val]) =
          some (FVal.fin ((a.val : ℚ) * (b.val : ℚ) + (c.val : ℚ)))) ∧
    (∀ a b c : Fin 5,
        evaluate (String.mk
            ['(', dChar a.val, '+', dChar b.val, ')', '*', dChar c.val]) =
          some (FVal.fin (((a.val : ℚ) + (b.val : ℚ)) * (c.val : ℚ)))) ∧
    (∀ a b c : Fin 3,
        evaluate (String.mk
            [dChar a.val, '*', '*', dChar b.val, '*', '*', dChar c.val]) =
          some (FVal.fin ((a.val : ℚ) ^ (b.val ^ c.val : ℕ)))) := by
  refine ⟨by decide, by decide, by decide, by decide, by decide, by decide, by decide⟩

/-- C7 counterexample: the claim predicts `evaluate "--5" = Some 5.0`
and `evaluate "---5" = Some (-5.0)`, but `parse_unary` calls
`parse_primary` (not itself) under a sign, so both parses fail. -/
theorem repeated_sign_cex :
    evaluate "--5" = none ∧ evaluate "---5" = none := by
  constructor
  · decide
  · decide

/-- C7 (amended): sign handling is a single optional sign per unary
application, not recursive: one sign works, stacked bare signs fail,
and a second sign is only reachable through parentheses. -/
theorem unary_sign_single_application :
    evaluate "-5" = some (FVal.fin (-5)) ∧
    evaluate "+5" = some (FVal.fin 5) ∧
    evaluate "--5" = none ∧
    evaluate "-+5" = none ∧
    evaluate "-(-5)" = some (FVal.fin 5) := by
  refine ⟨by decide, by decide, by decide, by decide, by decide⟩

/-- C8 counterexample: the classifier does not split on whitespace
runs: a tab never separates the prefix (so `"wifi\t5+5"` falls through
to the math heuristic instead of the Wifi prefix), and after two
spaces the remainder keeps the extra leading space. -/
theorem split_whitespace_run_cex :
    Mode.from_query "wifi\t5+5" ≠ (Mode.Wifi, "5+5") ∧
    Mode.from_query "wifi\t5+5" = (Mode.Calculator, "wifi\t5+5") ∧
    (Mode.from_query "wifi  5+5").2 ≠ "5+5" ∧
    Mode.from_query "wifi  5+5" = (Mode.Wifi, " 5+5") := by
  refine ⟨by decide, by decide, by decide, by decide⟩

/-- C8 (amended): the classifier trims the query and splits at the
first single space character only: the prefix is lower-cased, a tab
does not act as a separator, and only the first space is consumed, so
extra whitespace stays at the head of the remainder. -/
theorem split_at_first_space_only :
    Mode.from_query "NOTE hello" = (Mode.Notes, "hello") ∧
    Mode.from_query "note a b" = (Mode.Notes, "a b") ∧
    Mode.from_query "note  a" = (Mode.Notes, " a") ∧
    Mode.from_query "bt\t5+5" = (Mode.Calculator, "bt\t5+5") := by
  refine ⟨by decide, by decide, by decide, by decide⟩

/-- C5: `convert` succeeds exactly when both unit tokens are found in
one same dimension table, tried in the order length, weight,
temperature, time, data; cross-dimension requests fail, e.g.
`resolve "1 km to g" = None`. -/
theorem convert_requires_same_dimension :
    (∀ (v : ℚ) (src dst : String),
        (convert v src dst).isSome = true ↔
          (((length_units.lookup src).isSome = true ∧
            (length_units.lookup dst).isSome = true) ∨
           ((weight_units.lookup src).isSome = true ∧
            (weight_units.lookup dst).isSome = true) ∨
           (temperature_units.contains src = true ∧
            temperature_units.contains dst = true) ∨
           ((time_units.lookup src).isSome = true ∧
            (time_units.lookup dst).isSome = true) ∨
           ((data_units.lookup src).isSome = true ∧
            (data_units.lookup dst).isSome = true))) ∧
    resolveConv "1 km to g" = none := by
  refine ⟨fun v src dst => ?_, by decide⟩
  unfold convert
  rw [tryTable_isSome, tryTable_isSome]
  by_cases ht :
      (temperature_units.contains src && temperature_units.contains dst) = true
  · rw [if_pos ht]
    have h12 := ht
    rw [Bool.and_eq_true] at h12
    obtain ⟨h1, h2⟩ := h12
    have hmem : src ∈ temperature_units ∧ dst ∈ temperature_units :=
      ⟨by simpa using h1, by simpa using h2⟩
    simp [convert_temperature_isSome v src dst h1 h2]
    tauto
  · rw [if_neg ht]
    rw [tryTable_isSome, tryTable_isSome]
    simp only [Bool.and_eq_true] at ht
    simp only [Option.isSome_none, Bool.false_eq_true, or_false]
    tauto

/-- C9: under the (documented) assumption that the external skim
matcher only produces nonnegative scores, `fuzzy_score` equals the
maximum of the three candidates: the raw name score, the halved
description score and the largest halved keyword score, absent or
non-matching fields contributing nothing. -/
theorem fuzzy_score_eq_max_of_candidates (fm : String → String → Option ℤ)
    (it : Item) (q : String) (h : ∀ a b r, fm a b = some r → 0 ≤ r) :
    fuzzy_score fm it q =
      max (nameCand fm it q) (max (descCand fm it q) (kwCand fm it q)) := by
  have hname : 0 ≤ nameCand fm it q := by
    rw [← nameStep_eq fm it q h]
    exact nameStep_nonneg fm it q
  have hdesc : 0 ≤ descCand fm it q := by
    unfold descCand
    split
    · exact halfScore_nonneg fm q _ h
    · exact le_refl 0
  have hkw : 0 ≤ kwCand fm it q := le_foldl_max _ 0
  unfold fuzzy_score
  rw [kwFold_eq fm q h it.keywords _
        (le_trans (nameStep_nonneg fm it q) (le_descStep fm it q _)),
      descStep_eq fm it q _ (nameStep_nonneg fm it q) h,
      nameStep_eq fm it q h]
  show max (max (nameCand fm it q) (descCand fm it q)) (kwCand fm it q) = _
  simp only [max_def]
  split_ifs <;> omega

/-- Witness for C9 with a concrete nonnegative matcher: the name score
7 beats the halved description score 3 and halved keyword score 1. -/
theorem fuzzy_score_eq_max_of_candidates_witness :
    fuzzy_score (fun s _ => some (s.length : ℤ))
      ⟨"firefox", some "browser", ["web"]⟩ "fire" = 7 := by
  have h := fuzzy_score_eq_max_of_candidates (fun s _ => some (s.length : ℤ))
    ⟨"firefox", some "browser", ["web"]⟩ "fire"
    (fun a b r hr => by
      simp only [Option.some.injEq] at hr
      omega)
  rw [h]
  decide

/-- C10: `fuzzy_score` is never negative (the accumulator starts at 0
and only takes maxima), so 0 is the unique no-match signal, and the
Apps filter keeps an item (with its score) exactly when its score is
nonzero. -/
theorem fuzzy_score_nonneg_and_filter_exact :
    (∀ (fm : String → String → Option ℤ) (it : Item) (q : String),
        0 ≤ fuzzy_score fm it q) ∧
    (∀ (fm : String → String → Option ℤ) (q : String) (items : List Item)
        (it : Item),
        (∃ s, (it, s) ∈ filterApps fm q items) ↔
          it ∈ items ∧ fuzzy_score fm it (lowerStr q) ≠ 0) := by
  refine ⟨fuzzy_score_nonneg, fun fm q items it => ?_⟩
  unfold filterApps
  constructor
  · rintro ⟨s, hs⟩
    rcases List.mem_filterMap.mp hs with ⟨a, ha, hfa⟩
    by_cases hpos : fuzzy_score fm a (lowerStr q) > 0
    · rw [if_pos hpos] at hfa
      rcases Option.some.inj hfa with h2
      rcases Prod.mk.injEq .. ▸ h2 with ⟨rfl, rfl⟩
      exact ⟨ha, by omega⟩
    · rw [if_neg hpos] at hfa
      exact absurd hfa (Option.noConfusion)
  · rintro ⟨hmem, hne⟩
    have h0 := fuzzy_score_nonneg fm it (lowerStr q)
    have hpos : fuzzy_score fm it (lowerStr q) > 0 := by omega
    exact ⟨fuzzy_score fm it (lowerStr q),
      List.mem_filterMap.mpr ⟨it, hmem, by rw [if_pos hpos]⟩⟩
